import Mathlib

/-!
# Verification of the signal/backtest core of `weather-vibe-coding`

Shallow embedding of the quantitative pipeline in `signals/indicators.py`,
`signals/backtest.py`, `signals/evaluation.py` and `signals/sweep.py`.

Modelling conventions:
* A pandas `Series` over the dataframe's row index `0, …, n-1` is a `List`;
  entry `t` is the value at the `t`-th timestamp.
* A float column that can hold `NaN` is a `List (Option ℚ)` (or `List (Option ℝ)`
  where the source computes square roots); `none` models `NaN`.
* Price columns are `List ℚ`; theorems that divide by prices carry positivity
  hypotheses, matching the intended domain (adjusted close prices are positive).
* Fallible Python code (raised exceptions) is `Except String`; the string is the
  exception rendered as text (`KeyError`/`ValueError` messages).
* pandas facts used by the embedding: `rolling(window=w)` raises
  `ValueError` for `w < 0` and accepts `w = 0` (producing all-`NaN` means);
  a rolling aggregate with default `min_periods` is `NaN` until its window is
  full of non-`NaN` entries; comparisons against `NaN` are `False`;
  `Series.std(ddof=0)` of an empty series is `NaN`; `pct_change` is `NaN`
  at index 0.
-/

/-- A series of length `n` whose value at timestamp `t` is `f t`
(the uniform way this embedding builds pandas `Series`). -/
def tabulate {α : Type*} (n : ℕ) (f : ℕ → α) : List α :=
  (List.range n).map f

theorem length_tabulate {α : Type*} (n : ℕ) (f : ℕ → α) :
    (tabulate n f).length = n := by
  simp [tabulate]

theorem tabulate_getD {α : Type*} (n : ℕ) (f : ℕ → α) (t : ℕ) (d : α) :
    (tabulate n f).getD t d = if t < n then f t else d := by
  rcases Nat.lt_or_ge t n with h | h
  · simp [tabulate, List.getD_eq_getElem?_getD, List.getElem?_map,
      List.getElem?_range h, h]
  · rw [tabulate, List.getD_eq_getElem?_getD, List.getElem?_map,
      List.getElem?_eq_none (by simpa using h), if_neg (Nat.not_lt.mpr h)]
    rfl

/-- `signal.fillna(False)[i]` as a `Bool`: a missing (`NaN`) entry and an
out-of-range index both read as `False`. -/
def sigAt (signal : List (Option Bool)) (i : ℕ) : Bool :=
  (signal.getD i none).getD false

/-!
## `signals/backtest.py` — `build_position_from_signal`

```python
if cooldown_days <= 0:
    raise ValueError("cooldown_days must be > 0")
sig = signal.fillna(False).astype(bool)
pos = pd.Series(1.0, index=sig.index)
idx = sig.index.to_list()
for i, is_sig in enumerate(sig.to_list()):
    if not is_sig:
        continue
    start = i + 1
    end = min(i + 1 + cooldown_days, len(idx))
    if start < len(idx):
        pos.loc[idx[start:end]] = 0.0
return pos
```
-/

/-- One execution of `pos.loc[idx[start:end]] = 0.0` for the signal at row `i`:
rows `i+1, …, min (i+1+cd) n - 1` of `pos` are set to `0`. -/
def setCashWindow (n cd : ℕ) (pos : List ℚ) (i : ℕ) : List ℚ :=
  tabulate n (fun τ => if i + 1 ≤ τ ∧ τ < min (i + 1 + cd) n then 0 else pos.getD τ 0)

/-- `build_position_from_signal` (backtest.py:14-41). -/
def build_position_from_signal (signal : List (Option Bool)) (cooldown_days : ℤ) :
    Except String (List ℚ) :=
  if cooldown_days ≤ 0 then .error "ValueError: cooldown_days must be > 0"
  else
    let sig : List Bool := signal.map (fun o => o.getD false)
    let n := sig.length
    let cd := cooldown_days.toNat
    .ok <| (List.range n).foldl
      (fun pos i => if sig.getD i false then setCashWindow n cd pos i else pos)
      (List.replicate n 1)

theorem length_setCashWindow (n cd : ℕ) (pos : List ℚ) (i : ℕ) :
    (setCashWindow n cd pos i).length = n :=
  length_tabulate _ _

theorem setCashWindow_getD (n cd : ℕ) (pos : List ℚ) (i τ : ℕ) (hτ : τ < n) :
    (setCashWindow n cd pos i).getD τ 0 =
      if i + 1 ≤ τ ∧ τ < min (i + 1 + cd) n then 0 else pos.getD τ 0 := by
  rw [setCashWindow, tabulate_getD, if_pos hτ]

/-- Invariant of the `for i, is_sig in enumerate(...)` loop: after processing the
rows listed in `l`, an in-range entry of `pos` is `0` exactly when some processed
signal row put it inside its cash window, and is otherwise untouched. -/
theorem foldl_setCashWindow_getD (sig : List Bool) (n cd : ℕ)
    (l : List ℕ) (pos : List ℚ) (hpos : pos.length = n) (τ : ℕ) (hτ : τ < n) :
    ((l.foldl
        (fun pos i => if sig.getD i false then setCashWindow n cd pos i else pos)
        pos).getD τ 0) =
      if ∃ i ∈ l, sig.getD i false = true ∧ i + 1 ≤ τ ∧ τ < min (i + 1 + cd) n then 0
      else pos.getD τ 0 := by
  induction l generalizing pos with
  | nil => simp
  | cons i l ih =>
    simp only [List.foldl_cons]
    by_cases hsig : sig.getD i false = true
    · rw [if_pos hsig]
      rw [ih (setCashWindow n cd pos i) (length_setCashWindow n cd pos i)]
      by_cases hwin : i + 1 ≤ τ ∧ τ < min (i + 1 + cd) n
      · have : ∃ j ∈ i :: l, sig.getD j false = true ∧ j + 1 ≤ τ ∧ τ < min (j + 1 + cd) n :=
          ⟨i, List.mem_cons_self i l, hsig, hwin⟩
        rw [if_pos this]
        by_cases hl : ∃ j ∈ l, sig.getD j false = true ∧ j + 1 ≤ τ ∧ τ < min (j + 1 + cd) n
        · rw [if_pos hl]
        · rw [if_neg hl, setCashWindow_getD n cd pos i τ hτ, if_pos hwin]
      · by_cases hl : ∃ j ∈ l, sig.getD j false = true ∧ j + 1 ≤ τ ∧ τ < min (j + 1 + cd) n
        · have : ∃ j ∈ i :: l, sig.getD j false = true ∧ j + 1 ≤ τ ∧ τ < min (j + 1 + cd) n := by
            obtain ⟨j, hj, h⟩ := hl
            exact ⟨j, List.mem_cons_of_mem i hj, h⟩
          rw [if_pos hl, if_pos this]
        · have : ¬ ∃ j ∈ i :: l, sig.getD j false = true ∧ j + 1 ≤ τ ∧ τ < min (j + 1 + cd) n := by
            rintro ⟨j, hj, h⟩
            rcases List.mem_cons.mp hj with rfl | hj
            · exact hwin h.2
            · exact hl ⟨j, hj, h⟩
          rw [if_neg hl, if_neg this, setCashWindow_getD n cd pos i τ hτ, if_neg hwin]
    · rw [if_neg hsig, ih pos hpos]
      have : (∃ j ∈ i :: l, sig.getD j false = true ∧ j + 1 ≤ τ ∧ τ < min (j + 1 + cd) n) ↔
          (∃ j ∈ l, sig.getD j false = true ∧ j + 1 ≤ τ ∧ τ < min (j + 1 + cd) n) := by
        constructor
        · rintro ⟨j, hj, h⟩
          rcases List.mem_cons.mp hj with rfl | hj
          · exact absurd h.1 hsig
          · exact ⟨j, hj, h⟩
        · rintro ⟨j, hj, h⟩
          exact ⟨j, List.mem_cons_of_mem i hj, h⟩
      rw [if_congr this rfl rfl]

theorem build_position_ok (signal : List (Option Bool)) (cooldown_days : ℤ)
    (hcd : 0 < cooldown_days) :
    ∃ pos, build_position_from_signal signal cooldown_days = .ok pos :=
  ⟨_, by rw [build_position_from_signal, if_neg (by omega)]⟩

theorem foldl_setCashWindow_length (sig : List Bool) (n cd : ℕ)
    (l : List ℕ) (pos : List ℚ) (hpos : pos.length = n) :
    ((l.foldl
        (fun pos i => if sig.getD i false then setCashWindow n cd pos i else pos)
        pos).length) = n := by
  induction l generalizing pos with
  | nil => simpa
  | cons i l ih =>
    simp only [List.foldl_cons]
    by_cases hs : sig.getD i false = true
    · rw [if_pos hs]; exact ih _ (length_setCashWindow n cd pos i)
    · rw [if_neg hs]; exact ih _ hpos

theorem build_position_length (signal : List (Option Bool)) (cooldown_days : ℤ)
    (pos : List ℚ) (h : build_position_from_signal signal cooldown_days = .ok pos) :
    pos.length = signal.length := by
  by_cases hcd : cooldown_days ≤ 0
  · rw [build_position_from_signal, if_pos hcd] at h
    exact absurd h (by simp)
  · rw [build_position_from_signal, if_neg hcd] at h
    simp only [Except.ok.injEq] at h
    subst h
    rw [foldl_setCashWindow_length _ _ _ _ _ (by simp)]
    simp

/-- `sigAt` agrees with the `fillna(False)` list the loop actually reads. -/
theorem getD_map_getD_false (signal : List (Option Bool)) (i : ℕ) :
    (signal.map (fun o => o.getD false)).getD i false = sigAt signal i := by
  rcases Nat.lt_or_ge i signal.length with h | h
  · simp [sigAt, List.getD_eq_getElem?_getD, List.getElem?_map,
      List.getElem?_eq_getElem h]
  · simp [sigAt, List.getD_eq_getElem?_getD, List.getElem?_eq_none (by simpa using h),
      List.getElem?_eq_none (by simpa using h : signal.length ≤ i)]

theorem getD_replicate_one (n τ : ℕ) (hτ : τ < n) :
    (List.replicate n (1 : ℚ)).getD τ 0 = 1 := by
  simp [List.getD_eq_getElem?_getD, List.getElem?_replicate, hτ]

/-- The cash-window characterization of the position loop: an in-range entry is
`0` when some strictly earlier signal row covers it within `cooldown_days`, and
`1` otherwise. -/
theorem build_position_getD_char (signal : List (Option Bool)) (cooldown_days : ℤ)
    (hcd : 1 ≤ cooldown_days) (pos : List ℚ)
    (hpos : build_position_from_signal signal cooldown_days = .ok pos)
    (τ : ℕ) (hτ : τ < signal.length) :
    pos.getD τ 0 =
      if ∃ t, t < signal.length ∧ sigAt signal t = true ∧
          t < τ ∧ (τ : ℤ) ≤ (t : ℤ) + cooldown_days then 0 else 1 := by
  rw [build_position_from_signal, if_neg (by omega)] at hpos
  simp only [Except.ok.injEq] at hpos
  subst hpos
  have hlen : (signal.map (fun o => o.getD false)).length = signal.length := by simp
  rw [foldl_setCashWindow_getD (signal.map (fun o => o.getD false))
    (signal.map (fun o => o.getD false)).length cooldown_days.toNat _
    (List.replicate _ 1) (by simp) τ (by omega)]
  have hiff :
      (∃ i ∈ List.range (signal.map (fun o => o.getD false)).length,
        (signal.map (fun o => o.getD false)).getD i false = true ∧
          i + 1 ≤ τ ∧ τ < min (i + 1 + cooldown_days.toNat)
            (signal.map (fun o => o.getD false)).length) ↔
      (∃ t, t < signal.length ∧ sigAt signal t = true ∧
        t < τ ∧ (τ : ℤ) ≤ (t : ℤ) + cooldown_days) := by
    constructor
    · rintro ⟨i, hi, hs, h1, h2⟩
      have hi' : i < signal.length := by
        have := List.mem_range.mp hi; omega
      refine ⟨i, hi', ?_, by omega, ?_⟩
      · rw [← getD_map_getD_false]; exact hs
      · rw [Nat.lt_min] at h2; omega
    · rintro ⟨t, ht, hs, h1, h2⟩
      refine ⟨t, List.mem_range.mpr (by omega), ?_, by omega, ?_⟩
      · rw [getD_map_getD_false]; exact hs
      · rw [Nat.lt_min]
        constructor
        · omega
        · omega
  rw [if_congr hiff rfl rfl]
  by_cases hc : ∃ t, t < signal.length ∧ sigAt signal t = true ∧
      t < τ ∧ (τ : ℤ) ≤ (t : ℤ) + cooldown_days
  · rw [if_pos hc, if_pos hc]
  · rw [if_neg hc, if_neg hc, getD_replicate_one _ _ (by omega)]

/-- C2: for every boolean signal series and every `cooldown_days ≥ 1`, the
position built by `build_position_from_signal` is `0` at `τ` exactly when some
signal fired at a row `t` with `t < τ ≤ t + cooldown_days` (overlapping windows
merge by union, not additive extension), and is `1` everywhere else. -/
theorem build_position_cash_iff (signal : List (Option Bool)) (cooldown_days : ℤ)
    (hcd : 1 ≤ cooldown_days) (pos : List ℚ)
    (hpos : build_position_from_signal signal cooldown_days = .ok pos)
    (τ : ℕ) (hτ : τ < signal.length) :
    (pos.getD τ 0 = 0 ↔
      ∃ t, t < signal.length ∧ sigAt signal t = true ∧
        t < τ ∧ (τ : ℤ) ≤ (t : ℤ) + cooldown_days) ∧
    (pos.getD τ 0 = 0 ∨ pos.getD τ 0 = 1) := by
  rw [build_position_getD_char signal cooldown_days hcd pos hpos τ hτ]
  by_cases hc : ∃ t, t < signal.length ∧ sigAt signal t = true ∧
      t < τ ∧ (τ : ℤ) ≤ (t : ℤ) + cooldown_days
  · rw [if_pos hc]
    exact ⟨⟨fun _ => hc, fun _ => rfl⟩, Or.inl rfl⟩
  · rw [if_neg hc]
    exact ⟨⟨fun h1 => absurd h1 one_ne_zero, fun h => absurd h hc⟩, Or.inr rfl⟩

/-- Witness for C2: signals at rows 0 and 1 with cooldown 3 on a 6-row series
give position `[1, 0, 0, 0, 0, 1]`, and row 4 is cash exactly because a signal
fired at some `t < 4` with `4 ≤ t + 3`. -/
theorem build_position_cash_iff_witness :
    (build_position_from_signal [some true, some true, none, none, none, none] 3 =
      .ok [1, 0, 0, 0, 0, 1]) ∧
    (([(1 : ℚ), 0, 0, 0, 0, 1].getD 4 0 = 0 ↔
      ∃ t, t < [some true, some true, none, none, none, none].length ∧
        sigAt [some true, some true, none, none, none, none] t = true ∧
        t < 4 ∧ (4 : ℤ) ≤ (t : ℤ) + 3)) :=
  ⟨by rfl,
   (build_position_cash_iff [some true, some true, none, none, none, none] 3
      (by decide) [1, 0, 0, 0, 0, 1] (by rfl) 4 (by decide)).1⟩

/-!
## `signals/backtest.py` — `compute_equity_curves`, `max_drawdown`

```python
daily_ret = price.pct_change().fillna(0.0)
position = build_position_from_signal(df[signal_col], cooldown_days=cooldown_days)
strat_ret = daily_ret * position
bh_equity = (1.0 + daily_ret).cumprod()
strat_equity = (1.0 + strat_ret).cumprod()
```

The pandas column-presence checks (`Expected '{price_col}' column`) are carried
by the typed arguments here: the price and signal columns are passed explicitly.
-/

/-- `Series.pct_change()` on a total price column: `NaN` at row 0, otherwise
`price[t] / price[t-1] - 1` (pandas computes `data.div(data.shift(1)) - 1`). -/
def pctChange (price : List ℚ) : List (Option ℚ) :=
  tabulate price.length (fun t =>
    if t = 0 then none else some (price.getD t 0 / price.getD (t - 1) 0 - 1))

/-- `.fillna(0.0)` on a float column. -/
def fillna0 (xs : List (Option ℚ)) : List ℚ :=
  xs.map (fun o => o.getD 0)

/-- `Series.cumprod()`: entry `t` is the product of entries `0, …, t`. -/
def cumprod (xs : List ℚ) : List ℚ :=
  tabulate xs.length (fun t => (xs.take (t + 1)).prod)

/-- The frame returned by `compute_equity_curves` (its five columns). -/
structure BacktestFrame where
  daily_ret : List ℚ
  position : List ℚ
  strat_ret : List ℚ
  bh_equity : List ℚ
  strat_equity : List ℚ

/-- `compute_equity_curves` (backtest.py:44-86). -/
def compute_equity_curves (price : List ℚ) (signal : List (Option Bool))
    (cooldown_days : ℤ) : Except String BacktestFrame := do
  let daily_ret := fillna0 (pctChange price)
  let position ← build_position_from_signal signal cooldown_days
  let strat_ret := List.zipWith (· * ·) daily_ret position
  Except.ok
    { daily_ret := daily_ret
      position := position
      strat_ret := strat_ret
      bh_equity := cumprod (daily_ret.map (fun r => 1 + r))
      strat_equity := cumprod (strat_ret.map (fun r => 1 + r)) }

/-- `Series.cummax()`: entry `t` is the maximum of entries `0, …, t`. -/
def cummax (xs : List ℚ) : List ℚ :=
  tabulate xs.length (fun t => (xs.take (t + 1)).foldl max (xs.getD 0 0))

/-- The drawdown series `equity / equity.cummax() - 1.0` of `max_drawdown`. -/
def drawdown (equity : List ℚ) : List ℚ :=
  tabulate equity.length (fun t => equity.getD t 0 / (cummax equity).getD t 0 - 1)

/-- `max_drawdown` (backtest.py:88-94): `float(dd.min())`.  `none` models the
`NaN` that `Series.min()` yields on an empty series. -/
def max_drawdown (equity : List ℚ) : Option ℚ :=
  (drawdown equity).min?

theorem fillna0_getD (xs : List (Option ℚ)) (t : ℕ) :
    (fillna0 xs).getD t 0 = (xs.getD t none).getD 0 := by
  rcases Nat.lt_or_ge t xs.length with h | h
  · simp [fillna0, List.getD_eq_getElem?_getD, List.getElem?_map,
      List.getElem?_eq_getElem h]
  · simp [fillna0, List.getD_eq_getElem?_getD,
      List.getElem?_eq_none (by simpa using h),
      List.getElem?_eq_none (by simpa using h : xs.length ≤ t)]

theorem length_fillna0 (xs : List (Option ℚ)) : (fillna0 xs).length = xs.length := by
  simp [fillna0]

theorem length_pctChange (price : List ℚ) : (pctChange price).length = price.length :=
  length_tabulate _ _

theorem pctChange_getD (price : List ℚ) (t : ℕ) :
    (pctChange price).getD t none =
      if t < price.length then
        (if t = 0 then none else some (price.getD t 0 / price.getD (t - 1) 0 - 1))
      else none :=
  tabulate_getD _ _ _ _

/-- The `daily_ret` column: `pct_change().fillna(0.0)` pointwise. -/
theorem dailyRet_getD (price : List ℚ) (t : ℕ) :
    (fillna0 (pctChange price)).getD t 0 =
      if t < price.length ∧ t ≠ 0 then price.getD t 0 / price.getD (t - 1) 0 - 1
      else 0 := by
  rw [fillna0_getD, pctChange_getD]
  by_cases ht : t < price.length
  · by_cases h0 : t = 0 <;> simp [ht, h0]
  · simp [ht]

theorem zipWith_mul_getD (a b : List ℚ) (t : ℕ) (ha : t < a.length) (hb : t < b.length) :
    (List.zipWith (· * ·) a b).getD t 0 = a.getD t 0 * b.getD t 0 := by
  rw [List.getD_eq_getElem?_getD, List.getElem?_zipWith,
    List.getElem?_eq_getElem ha, List.getElem?_eq_getElem hb]
  simp [List.getD_eq_getElem?_getD, List.getElem?_eq_getElem ha,
    List.getElem?_eq_getElem hb]

theorem compute_equity_curves_ok (price : List ℚ) (signal : List (Option Bool))
    (cooldown_days : ℤ) (pos : List ℚ)
    (hpos : build_position_from_signal signal cooldown_days = .ok pos) :
    compute_equity_curves price signal cooldown_days = .ok
      { daily_ret := fillna0 (pctChange price)
        position := pos
        strat_ret := List.zipWith (· * ·) (fillna0 (pctChange price)) pos
        bh_equity := cumprod ((fillna0 (pctChange price)).map (fun r => 1 + r))
        strat_equity :=
          cumprod ((List.zipWith (· * ·) (fillna0 (pctChange price)) pos).map
            (fun r => 1 + r)) } := by
  rw [compute_equity_curves, hpos]
  rfl

/-- C3 (no look-ahead): if two input frames carry the same price and signal
values at every row `τ ≤ t` (they may differ strictly after `t`), then
`compute_equity_curves` produces the same `position[t]` and the same
`strat_ret[t]` on both. -/
theorem no_lookahead (p₁ p₂ : List ℚ) (s₁ s₂ : List (Option Bool))
    (cooldown_days : ℤ) (hcd : 1 ≤ cooldown_days)
    (hl₁ : s₁.length = p₁.length) (hl₂ : s₂.length = p₂.length)
    (hlp : p₁.length = p₂.length)
    (t : ℕ) (ht : t < p₁.length)
    (hp : ∀ τ, τ ≤ t → p₁.getD τ 0 = p₂.getD τ 0)
    (hs : ∀ τ, τ ≤ t → s₁.getD τ none = s₂.getD τ none) :
    (compute_equity_curves p₁ s₁ cooldown_days).map
        (fun f => (f.position.getD t 0, f.strat_ret.getD t 0)) =
      (compute_equity_curves p₂ s₂ cooldown_days).map
        (fun f => (f.position.getD t 0, f.strat_ret.getD t 0)) := by
  obtain ⟨pos₁, hpos₁⟩ := build_position_ok s₁ cooldown_days (by omega)
  obtain ⟨pos₂, hpos₂⟩ := build_position_ok s₂ cooldown_days (by omega)
  rw [compute_equity_curves_ok p₁ s₁ cooldown_days pos₁ hpos₁,
    compute_equity_curves_ok p₂ s₂ cooldown_days pos₂ hpos₂]
  have hposeq : pos₁.getD t 0 = pos₂.getD t 0 := by
    rw [build_position_getD_char s₁ cooldown_days hcd pos₁ hpos₁ t (by omega),
      build_position_getD_char s₂ cooldown_days hcd pos₂ hpos₂ t (by omega)]
    have hiff : (∃ i, i < s₁.length ∧ sigAt s₁ i = true ∧
          i < t ∧ (t : ℤ) ≤ (i : ℤ) + cooldown_days) ↔
        (∃ i, i < s₂.length ∧ sigAt s₂ i = true ∧
          i < t ∧ (t : ℤ) ≤ (i : ℤ) + cooldown_days) := by
      constructor
      · rintro ⟨i, hi, hsig, h1, h2⟩
        refine ⟨i, by omega, ?_, h1, h2⟩
        rw [sigAt, ← hs i (le_of_lt h1)]
        exact hsig
      · rintro ⟨i, hi, hsig, h1, h2⟩
        refine ⟨i, by omega, ?_, h1, h2⟩
        rw [sigAt, hs i (le_of_lt h1)]
        exact hsig
    rw [if_congr hiff rfl rfl]
  have hdr : (fillna0 (pctChange p₁)).getD t 0 = (fillna0 (pctChange p₂)).getD t 0 := by
    rw [dailyRet_getD, dailyRet_getD]
    by_cases h0 : t = 0
    · simp [h0]
    · rw [if_pos ⟨ht, h0⟩, if_pos ⟨by omega, h0⟩, hp t le_rfl, hp (t - 1) (by omega)]
  have hsr : (List.zipWith (· * ·) (fillna0 (pctChange p₁)) pos₁).getD t 0 =
      (List.zipWith (· * ·) (fillna0 (pctChange p₂)) pos₂).getD t 0 := by
    rw [zipWith_mul_getD _ _ t (by rw [length_fillna0, length_pctChange]; omega)
        (by rw [build_position_length s₁ cooldown_days pos₁ hpos₁]; omega),
      zipWith_mul_getD _ _ t (by rw [length_fillna0, length_pctChange]; omega)
        (by rw [build_position_length s₂ cooldown_days pos₂ hpos₂]; omega),
      hdr, hposeq]
  simp only [Except.map]
  simp only [List.getD_eq_getElem?_getD] at hposeq hsr
  simp [hposeq, hsr]

/-- Witness for C3: two concrete frames agreeing up to row 1 and differing
strictly after it give the same `position[1]` and `strat_ret[1]`. -/
theorem no_lookahead_witness :
    (compute_equity_curves [1, 2, 3] [some true, none, none] 1).map
        (fun f => (f.position.getD 1 0, f.strat_ret.getD 1 0)) =
      (compute_equity_curves [1, 2, 30] [some true, none, some true] 1).map
        (fun f => (f.position.getD 1 0, f.strat_ret.getD 1 0)) :=
  no_lookahead [1, 2, 3] [1, 2, 30] [some true, none, none]
    [some true, none, some true] 1 (by decide) (by decide) (by decide) (by decide)
    1 (by decide) (by decide) (by decide)

theorem length_cumprod (xs : List ℚ) : (cumprod xs).length = xs.length :=
  length_tabulate _ _

theorem cumprod_getD (xs : List ℚ) (t : ℕ) (ht : t < xs.length) :
    (cumprod xs).getD t 0 = (xs.take (t + 1)).prod := by
  rw [cumprod, tabulate_getD, if_pos ht]

theorem length_cummax (xs : List ℚ) : (cummax xs).length = xs.length :=
  length_tabulate _ _

theorem cummax_getD (xs : List ℚ) (t : ℕ) (ht : t < xs.length) :
    (cummax xs).getD t 0 = (xs.take (t + 1)).foldl max (xs.getD 0 0) := by
  rw [cummax, tabulate_getD, if_pos ht]

theorem length_drawdown (equity : List ℚ) : (drawdown equity).length = equity.length :=
  length_tabulate _ _

theorem drawdown_getD (equity : List ℚ) (t : ℕ) (ht : t < equity.length) :
    (drawdown equity).getD t 0 = equity.getD t 0 / (cummax equity).getD t 0 - 1 := by
  rw [drawdown, tabulate_getD, if_pos ht]

theorem mem_tabulate {α : Type*} (n : ℕ) (f : ℕ → α) (x : α) :
    x ∈ tabulate n f ↔ ∃ t, t < n ∧ f t = x := by
  simp only [tabulate, List.mem_map, List.mem_range]

theorem le_foldl_max (l : List ℚ) (a : ℚ) : a ≤ l.foldl max a := by
  induction l generalizing a with
  | nil => exact le_refl a
  | cons x l ih => exact le_trans (le_max_left a x) (ih (max a x))

theorem mem_le_foldl_max (l : List ℚ) (a x : ℚ) (hx : x ∈ l) : x ≤ l.foldl max a := by
  induction l generalizing a with
  | nil => exact absurd hx (List.not_mem_nil x)
  | cons y l ih =>
    rw [List.foldl_cons]
    rcases List.mem_cons.mp hx with rfl | hx'
    · exact le_trans (le_max_right a x) (le_foldl_max l (max a x))
    · exact ih (max a y) hx'

theorem foldl_max_mem (l : List ℚ) (a : ℚ) : l.foldl max a = a ∨ l.foldl max a ∈ l := by
  induction l generalizing a with
  | nil => exact Or.inl rfl
  | cons x l ih =>
    rcases ih (max a x) with h | h
    · rcases max_choice a x with hax | hax
      · exact Or.inl (by rw [List.foldl_cons, h, hax])
      · exact Or.inr (by rw [List.foldl_cons, h, hax]; exact List.mem_cons_self x l)
    · exact Or.inr (List.mem_cons_of_mem x h)

theorem foldl_max_const (l : List ℚ) (a : ℚ) (h : ∀ x ∈ l, x = a) : l.foldl max a = a := by
  induction l with
  | nil => rfl
  | cons x l ih =>
    rw [List.foldl_cons, h x (List.mem_cons_self x l), max_self]
    exact ih (fun y hy => h y (List.mem_cons_of_mem x hy))

theorem foldl_min_le_init (l : List ℚ) (a : ℚ) : l.foldl min a ≤ a := by
  induction l generalizing a with
  | nil => exact le_refl a
  | cons x l ih => exact le_trans (ih (min a x)) (min_le_left a x)

theorem foldl_min_const (l : List ℚ) (a : ℚ) (h : ∀ x ∈ l, x = a) : l.foldl min a = a := by
  induction l with
  | nil => rfl
  | cons x l ih =>
    rw [List.foldl_cons, h x (List.mem_cons_self x l), min_self]
    exact ih (fun y hy => h y (List.mem_cons_of_mem x hy))

theorem getD_eq_of_all_eq (p : List ℚ) (c : ℚ) (h : ∀ x ∈ p, x = c) (t : ℕ)
    (ht : t < p.length) : p.getD t 0 = c := by
  rw [List.getD_eq_getElem?_getD, List.getElem?_eq_getElem ht]
  exact h _ (List.getElem_mem ht)

/-- Pointwise analysis of the drawdown series over a positive equity curve:
each in-range entry is `≤ 0`, with equality exactly at running highs. -/
theorem drawdown_getD_nonpos (equity : List ℚ) (hpos : ∀ x ∈ equity, 0 < x)
    (t : ℕ) (ht : t < equity.length) :
    (drawdown equity).getD t 0 ≤ 0 ∧
      ((drawdown equity).getD t 0 = 0 ↔ equity.getD t 0 = (cummax equity).getD t 0) := by
  have hc : (cummax equity).getD t 0 = (equity.take (t + 1)).foldl max (equity.getD 0 0) :=
    cummax_getD equity t ht
  have h0 : equity.getD 0 0 = equity.getD 0 0 := rfl
  have hmem0 : equity.getD 0 0 ∈ equity := by
    rw [List.getD_eq_getElem?_getD, List.getElem?_eq_getElem (by omega : 0 < equity.length)]
    exact List.getElem_mem _
  have hpeak_pos : 0 < (cummax equity).getD t 0 := by
    rw [hc]
    rcases foldl_max_mem (equity.take (t + 1)) (equity.getD 0 0) with h | h
    · rw [h]; exact hpos _ hmem0
    · exact hpos _ (List.take_subset _ _ h)
  have hle : equity.getD t 0 ≤ (cummax equity).getD t 0 := by
    rw [hc]
    have hgd : equity.getD t 0 = equity[t] := by
      rw [List.getD_eq_getElem?_getD, List.getElem?_eq_getElem ht]
      rfl
    rw [hgd]
    refine mem_le_foldl_max _ _ _ ?_
    have htk : t < (equity.take (t + 1)).length := by
      simp only [List.length_take]
      omega
    have hmem : (equity.take (t + 1)).get ⟨t, htk⟩ ∈ equity.take (t + 1) :=
      List.getElem_mem htk
    simpa only [List.get_eq_getElem, List.getElem_take] using hmem
  rw [drawdown_getD equity t ht]
  constructor
  · have : equity.getD t 0 / (cummax equity).getD t 0 ≤ 1 :=
      (div_le_one hpeak_pos).mpr hle
    linarith
  · constructor
    · intro h
      have : equity.getD t 0 / (cummax equity).getD t 0 = 1 := by linarith
      rw [div_eq_one_iff_eq (ne_of_gt hpeak_pos)] at this
      exact this
    · intro h
      rw [h, div_self (ne_of_gt hpeak_pos)]
      ring

/-- C9 (amended): over every equity series with positive values, each in-range
drawdown entry `equity[t]/cummax[t] - 1` is `≤ 0`, with equality exactly when
`equity[t]` equals its running maximum; and on every nonempty such series
`max_drawdown` returns a non-positive number.  (On the empty series
`Series.min()` is `NaN`, modelled as `none` — see the counterexample.) -/
theorem drawdown_bound (equity : List ℚ) (hpos : ∀ x ∈ equity, 0 < x) :
    (∀ t, t < equity.length →
      (drawdown equity).getD t 0 ≤ 0 ∧
        ((drawdown equity).getD t 0 = 0 ↔
          equity.getD t 0 = (cummax equity).getD t 0)) ∧
    (equity ≠ [] → ∃ m, max_drawdown equity = some m ∧ m ≤ 0) := by
  refine ⟨fun t ht => drawdown_getD_nonpos equity hpos t ht, fun hne => ?_⟩
  obtain ⟨d, ds, hds⟩ := List.exists_cons_of_ne_nil
    (show drawdown equity ≠ [] by
      intro h
      exact hne (List.eq_nil_of_length_eq_zero
        (by rw [← length_drawdown equity, h]; rfl)))
  refine ⟨ds.foldl min d, ?_, ?_⟩
  · rw [max_drawdown, hds]
    rfl
  · have hd0 : d ≤ 0 := by
      have hd : d = (drawdown equity).getD 0 0 := by
        rw [hds]
        rfl
      rw [hd]
      exact (drawdown_getD_nonpos equity hpos 0
        (by rw [← length_drawdown equity, hds]; simp)).1
    exact le_trans (foldl_min_le_init ds d) hd0

/-- C9 counterexample: on the empty equity series the drawdown series is empty
and `float(dd.min())` is `NaN` (`none`), which is not a non-positive number. -/
theorem max_drawdown_nan_on_empty : max_drawdown [] = none := rfl

/-- Witness for C9: the amended bound instantiated on the positive equity
series `[2, 1, 3]`. -/
theorem drawdown_bound_witness :
    (∀ t, t < [(2 : ℚ), 1, 3].length →
      (drawdown [(2 : ℚ), 1, 3]).getD t 0 ≤ 0 ∧
        ((drawdown [(2 : ℚ), 1, 3]).getD t 0 = 0 ↔
          [(2 : ℚ), 1, 3].getD t 0 = (cummax [(2 : ℚ), 1, 3]).getD t 0)) ∧
    ([(2 : ℚ), 1, 3] ≠ [] → ∃ m, max_drawdown [(2 : ℚ), 1, 3] = some m ∧ m ≤ 0) :=
  drawdown_bound [2, 1, 3] (by decide)

theorem getElem_eq_getD (l : List ℚ) (t : ℕ) (h : t < l.length) :
    l[t] = l.getD t 0 := by
  rw [List.getD_eq_getElem?_getD, List.getElem?_eq_getElem h]
  rfl

theorem getD_map_one_add (xs : List ℚ) (t : ℕ) (ht : t < xs.length) :
    (xs.map (fun r => 1 + r)).getD t 0 = 1 + xs.getD t 0 := by
  rw [List.getD_eq_getElem?_getD, List.getElem?_map, List.getElem?_eq_getElem ht,
    List.getD_eq_getElem?_getD, List.getElem?_eq_getElem ht]
  rfl

theorem all_mem_eq_of_getD (l : List ℚ) (c : ℚ)
    (h : ∀ t, t < l.length → l.getD t 0 = c) : ∀ x ∈ l, x = c := by
  intro x hx
  obtain ⟨i, hi, rfl⟩ := List.mem_iff_getElem.mp hx
  have := h i hi
  rwa [List.getD_eq_getElem?_getD, List.getElem?_eq_getElem hi] at this

theorem dailyRet_const_zero (price : List ℚ) (c : ℚ) (hc : c ≠ 0)
    (h : ∀ x ∈ price, x = c) (t : ℕ) :
    (fillna0 (pctChange price)).getD t 0 = 0 := by
  rw [dailyRet_getD]
  by_cases hcond : t < price.length ∧ t ≠ 0
  · rw [if_pos hcond, getD_eq_of_all_eq price c h t hcond.1,
      getD_eq_of_all_eq price c h (t - 1) (by omega), div_self hc]
    ring
  · rw [if_neg hcond]

theorem map_one_add_of_zero (xs : List ℚ) (h : ∀ x ∈ xs, x = 0) :
    ∀ y ∈ xs.map (fun r => 1 + r), y = 1 := by
  intro y hy
  obtain ⟨r, hr, rfl⟩ := List.mem_map.mp hy
  rw [h r hr, add_zero]

theorem zipWith_mul_zero_left (a b : List ℚ) (h : ∀ x ∈ a, x = 0) :
    ∀ y ∈ List.zipWith (· * ·) a b, y = 0 := by
  intro y hy
  obtain ⟨i, hi, rfl⟩ := List.mem_iff_getElem.mp hy
  rw [List.getElem_zipWith]
  rw [h _ (List.getElem_mem _), zero_mul]

theorem cumprod_all_one_getD (xs : List ℚ) (h : ∀ x ∈ xs, x = 1) (t : ℕ)
    (ht : t < xs.length) : (cumprod xs).getD t 0 = 1 := by
  rw [cumprod_getD xs t ht]
  exact List.prod_eq_one (fun x hx => h x (List.take_subset _ _ hx))

theorem cumprod_all_one_mem (xs : List ℚ) (h : ∀ x ∈ xs, x = 1) :
    ∀ y ∈ cumprod xs, y = 1 := by
  intro y hy
  simp only [cumprod] at hy
  rw [mem_tabulate] at hy
  obtain ⟨t, ht, hft⟩ := hy
  rw [← hft]
  exact List.prod_eq_one (fun x hx => h x (List.take_subset _ _ hx))

/-- `max_drawdown` of a constant positive equity curve is `0`. -/
theorem max_drawdown_const (equity : List ℚ) (c : ℚ) (hc : 0 < c)
    (h : ∀ x ∈ equity, x = c) (hne : equity ≠ []) :
    max_drawdown equity = some 0 := by
  have hlen : 0 < equity.length := List.length_pos.mpr hne
  have hdd : ∀ t, t < equity.length → (drawdown equity).getD t 0 = 0 := by
    intro t ht
    rw [drawdown_getD equity t ht, cummax_getD equity t ht,
      getD_eq_of_all_eq equity c h 0 (by omega),
      foldl_max_const _ _ (fun x hx => h x (List.take_subset _ _ hx)),
      getD_eq_of_all_eq equity c h t ht, div_self (ne_of_gt hc)]
    ring
  have hall : ∀ x ∈ drawdown equity, x = 0 := by
    intro x hx
    simp only [drawdown] at hx
    rw [mem_tabulate] at hx
    obtain ⟨t, ht, hft⟩ := hx
    have := hdd t ht
    rw [drawdown_getD equity t ht] at this
    rw [← hft]
    exact this
  obtain ⟨d, ds, hds⟩ := List.exists_cons_of_ne_nil
    (show drawdown equity ≠ [] by
      intro hnil
      rw [← length_drawdown equity, hnil] at hlen
      exact absurd hlen (by simp))
  have hd : d = 0 := hall d (by rw [hds]; exact List.mem_cons_self d ds)
  have hds0 : ∀ x ∈ ds, x = d := by
    intro x hx
    rw [hd]
    exact hall x (by rw [hds]; exact List.mem_cons_of_mem d hx)
  rw [max_drawdown, hds]
  show some (ds.foldl min d) = some 0
  rw [foldl_min_const ds d hds0, hd]

/-- C8: when every daily return of the input price series is 0 (constant
prices), both equity curves from `compute_equity_curves` equal exactly `1.0`
at every timestamp and `max_drawdown` of each curve is `0`; in general both
curves are seeded at `1.0` on the first timestamp and are the running products
of `1 + realized daily return`. -/
theorem equity_curves_zero_returns :
    (∀ (price : List ℚ) (c : ℚ) (signal : List (Option Bool)) (cooldown_days : ℤ)
        (f : BacktestFrame),
      0 < cooldown_days → 0 < c → (∀ x ∈ price, x = c) →
      signal.length = price.length →
      compute_equity_curves price signal cooldown_days = .ok f →
      (∀ t, t < price.length →
        f.daily_ret.getD t 0 = 0 ∧ f.bh_equity.getD t 0 = 1 ∧
          f.strat_equity.getD t 0 = 1) ∧
      (price ≠ [] →
        max_drawdown f.bh_equity = some 0 ∧ max_drawdown f.strat_equity = some 0)) ∧
    (∀ (price : List ℚ) (signal : List (Option Bool)) (cooldown_days : ℤ)
        (f : BacktestFrame),
      0 < cooldown_days → signal.length = price.length →
      compute_equity_curves price signal cooldown_days = .ok f →
      (price ≠ [] → f.bh_equity.getD 0 0 = 1 ∧ f.strat_equity.getD 0 0 = 1) ∧
      (∀ t, t < price.length →
        f.bh_equity.getD t 0 =
          ((f.daily_ret.map (fun r => 1 + r)).take (t + 1)).prod ∧
        f.strat_equity.getD t 0 =
          ((f.strat_ret.map (fun r => 1 + r)).take (t + 1)).prod)) := by
  have key : ∀ (price : List ℚ) (signal : List (Option Bool)) (cooldown_days : ℤ)
      (f : BacktestFrame), 0 < cooldown_days → signal.length = price.length →
      compute_equity_curves price signal cooldown_days = .ok f →
      ∃ pos, build_position_from_signal signal cooldown_days = .ok pos ∧
        pos.length = price.length ∧
        f = { daily_ret := fillna0 (pctChange price)
              position := pos
              strat_ret := List.zipWith (· * ·) (fillna0 (pctChange price)) pos
              bh_equity := cumprod ((fillna0 (pctChange price)).map (fun r => 1 + r))
              strat_equity :=
                cumprod ((List.zipWith (· * ·) (fillna0 (pctChange price)) pos).map
                  (fun r => 1 + r)) } := by
    intro price signal cooldown_days f hcd hlen hok
    obtain ⟨pos, hpos⟩ := build_position_ok signal cooldown_days hcd
    rw [compute_equity_curves_ok price signal cooldown_days pos hpos] at hok
    simp only [Except.ok.injEq] at hok
    exact ⟨pos, hpos, by rw [build_position_length signal cooldown_days pos hpos, hlen],
      hok.symm⟩
  constructor
  · intro price c signal cooldown_days f hcd hc hconst hlen hok
    obtain ⟨pos, hpos, hposlen, rfl⟩ := key price signal cooldown_days f hcd hlen hok
    dsimp only
    have hdr0 : ∀ t, (fillna0 (pctChange price)).getD t 0 = 0 :=
      dailyRet_const_zero price c (ne_of_gt hc) hconst
    have hdrlen : (fillna0 (pctChange price)).length = price.length := by
      rw [length_fillna0, length_pctChange]
    have hdrall : ∀ x ∈ fillna0 (pctChange price), x = 0 :=
      all_mem_eq_of_getD _ 0 (fun t _ => hdr0 t)
    have hsrall : ∀ x ∈ List.zipWith (· * ·) (fillna0 (pctChange price)) pos, x = 0 :=
      zipWith_mul_zero_left _ _ hdrall
    have hbh1 : ∀ y ∈ (fillna0 (pctChange price)).map (fun r => 1 + r), y = 1 :=
      map_one_add_of_zero _ hdrall
    have hst1 : ∀ y ∈ (List.zipWith (· * ·) (fillna0 (pctChange price)) pos).map
        (fun r => 1 + r), y = 1 :=
      map_one_add_of_zero _ hsrall
    have hbhlen : ((fillna0 (pctChange price)).map (fun r => 1 + r)).length =
        price.length := by
      rw [List.length_map, hdrlen]
    have hstlen : ((List.zipWith (· * ·) (fillna0 (pctChange price)) pos).map
        (fun r => 1 + r)).length = price.length := by
      rw [List.length_map, List.length_zipWith, hdrlen, hposlen, min_self]
    constructor
    · intro t ht
      refine ⟨hdr0 t, ?_, ?_⟩
      · exact cumprod_all_one_getD _ hbh1 t (by rw [hbhlen]; exact ht)
      · exact cumprod_all_one_getD _ hst1 t (by rw [hstlen]; exact ht)
    · intro hne
      have hn : 0 < price.length := List.length_pos.mpr hne
      constructor
      · exact max_drawdown_const _ 1 one_pos (cumprod_all_one_mem _ hbh1)
          (List.length_pos.mp (by rw [length_cumprod, hbhlen]; exact hn))
      · exact max_drawdown_const _ 1 one_pos (cumprod_all_one_mem _ hst1)
          (List.length_pos.mp (by rw [length_cumprod, hstlen]; exact hn))
  · intro price signal cooldown_days f hcd hlen hok
    obtain ⟨pos, hpos, hposlen, rfl⟩ := key price signal cooldown_days f hcd hlen hok
    dsimp only
    have hdrlen : (fillna0 (pctChange price)).length = price.length := by
      rw [length_fillna0, length_pctChange]
    have hbhlen : ((fillna0 (pctChange price)).map (fun r => 1 + r)).length =
        price.length := by
      rw [List.length_map, hdrlen]
    have hstlen : ((List.zipWith (· * ·) (fillna0 (pctChange price)) pos).map
        (fun r => 1 + r)).length = price.length := by
      rw [List.length_map, List.length_zipWith, hdrlen, hposlen, min_self]
    have hprod : ∀ t, t < price.length →
        (cumprod ((fillna0 (pctChange price)).map (fun r => 1 + r))).getD t 0 =
          (((fillna0 (pctChange price)).map (fun r => 1 + r)).take (t + 1)).prod ∧
        (cumprod ((List.zipWith (· * ·) (fillna0 (pctChange price)) pos).map
            (fun r => 1 + r))).getD t 0 =
          (((List.zipWith (· * ·) (fillna0 (pctChange price)) pos).map
            (fun r => 1 + r)).take (t + 1)).prod := by
      intro t ht
      exact ⟨cumprod_getD _ t (by rw [hbhlen]; exact ht),
        cumprod_getD _ t (by rw [hstlen]; exact ht)⟩
    refine ⟨?_, hprod⟩
    intro hne
    have hn : 0 < price.length := List.length_pos.mpr hne
    have hdr0 : (fillna0 (pctChange price)).getD 0 0 = 0 := by
      rw [dailyRet_getD]
      simp
    obtain ⟨h1, h2⟩ := hprod 0 hn
    have hbh0 : (((fillna0 (pctChange price)).map (fun r => 1 + r)).take 1).prod = 1 := by
      have hb : 0 < ((fillna0 (pctChange price)).map (fun r => 1 + r)).length := by
        rw [hbhlen]
        exact hn
      rw [List.prod_take_succ _ 0 hb, getElem_eq_getD _ 0 hb,
        getD_map_one_add _ 0 (by rw [hdrlen]; exact hn), hdr0]
      norm_num
    have hsr0 : (List.zipWith (· * ·) (fillna0 (pctChange price)) pos).getD 0 0 = 0 := by
      rw [zipWith_mul_getD _ _ 0 (by rw [hdrlen]; exact hn) (by rw [hposlen]; exact hn),
        hdr0, zero_mul]
    have hst0 : (((List.zipWith (· * ·) (fillna0 (pctChange price)) pos).map
        (fun r => 1 + r)).take 1).prod = 1 := by
      have hb : 0 < ((List.zipWith (· * ·) (fillna0 (pctChange price)) pos).map
          (fun r => 1 + r)).length := by
        rw [hstlen]
        exact hn
      rw [List.prod_take_succ _ 0 hb, getElem_eq_getD _ 0 hb,
        getD_map_one_add _ 0 (by
          rw [List.length_zipWith, hdrlen, hposlen, min_self]
          exact hn), hsr0]
      norm_num
    exact ⟨by rw [h1, hbh0], by rw [h2, hst0]⟩

/-- Witness for C8: the constant price series `[5, 5, 5]` with a signal column
and cooldown 2 gives flat unit equity curves and zero max drawdowns. -/
theorem equity_curves_zero_returns_witness :
    ∃ f, compute_equity_curves [(5 : ℚ), 5, 5] [none, some true, none] 2 = .ok f ∧
      ((∀ t, t < [(5 : ℚ), 5, 5].length →
        f.daily_ret.getD t 0 = 0 ∧ f.bh_equity.getD t 0 = 1 ∧
          f.strat_equity.getD t 0 = 1) ∧
      ([(5 : ℚ), 5, 5] ≠ [] →
        max_drawdown f.bh_equity = some 0 ∧ max_drawdown f.strat_equity = some 0)) := by
  obtain ⟨pos, hpos⟩ := build_position_ok [none, some true, none] 2 (by norm_num)
  refine ⟨_, compute_equity_curves_ok [(5 : ℚ), 5, 5] [none, some true, none] 2 pos hpos,
    ?_⟩
  exact equity_curves_zero_returns.1 [(5 : ℚ), 5, 5] 5 [none, some true, none] 2 _
    (by norm_num) (by norm_num) (by decide) (by decide)
    (compute_equity_curves_ok [(5 : ℚ), 5, 5] [none, some true, none] 2 pos hpos)

/-!
## `signals/backtest.py` — `sharpe_ratio` and the other summary statistics

Sharpe, annualized volatility and annualized return involve square roots and
real exponents, so they live over `ℝ`.
-/

/-- `Series.mean()` of a total float series: sum over length. -/
noncomputable def seriesMean (xs : List ℝ) : ℝ :=
  xs.sum / xs.length

/-- `Series.std(ddof=0)` of a total float series (population standard
deviation).  On the empty series pandas yields `NaN`; here `0/0 = 0` makes the
value `0`, and the one place the source meets that case (`sharpe_ratio`) guards
it with `np.isnan(vol)` explicitly, so the distinction never leaks. -/
noncomputable def stdDev0 (xs : List ℝ) : ℝ :=
  Real.sqrt ((xs.map (fun x => (x - seriesMean xs) ^ 2)).sum / xs.length)

open Classical

/-- `sharpe_ratio` (backtest.py:114-127).

```python
rf_daily = (1.0 + risk_free_rate_annual) ** (1.0 / periods_per_year) - 1.0
excess = daily_returns - rf_daily
vol = excess.std(ddof=0)
if vol == 0 or np.isnan(vol):
    return 0.0
return float((excess.mean() / vol) * np.sqrt(periods_per_year))
```

The `daily_returns = []` disjunct is the `np.isnan(vol)` guard: the std of an
empty series is the only `NaN` that can reach `vol` from a total series. -/
noncomputable def sharpe_ratio (daily_returns : List ℝ)
    (risk_free_rate_annual : ℝ := 0) (periods_per_year : ℝ := 252) : ℝ :=
  let rf_daily := Real.rpow (1 + risk_free_rate_annual) (1 / periods_per_year) - 1
  let excess := daily_returns.map (fun r => r - rf_daily)
  let vol := stdDev0 excess
  if vol = 0 ∨ daily_returns = [] then 0
  else (seriesMean excess / vol) * Real.sqrt periods_per_year

theorem stdDev0_const (xs : List ℝ) (a : ℝ) (h : ∀ x ∈ xs, x = a) :
    stdDev0 xs = 0 := by
  rcases List.eq_nil_or_concat xs with rfl | _
  · simp [stdDev0, seriesMean]
  · have hmean : seriesMean xs = a ∨ xs = [] := by
      rcases eq_or_ne xs [] with rfl | hne
      · exact Or.inr rfl
      · left
        rw [seriesMean, List.sum_eq_card_nsmul xs a h, nsmul_eq_mul]
        have hn : (xs.length : ℝ) ≠ 0 :=
          Nat.cast_ne_zero.mpr (List.length_pos.mpr hne).ne'
        field_simp
    rcases hmean with hmean | rfl
    · have : ∀ y ∈ xs.map (fun x => (x - seriesMean xs) ^ 2), y = 0 := by
        intro y hy
        obtain ⟨x, hx, rfl⟩ := List.mem_map.mp hy
        rw [h x hx, hmean]
        ring
      rw [stdDev0, List.sum_eq_card_nsmul _ 0 this]
      simp
    · simp [stdDev0, seriesMean]

/-- C5: `sharpe_ratio` returns exactly 0 on every constant (or empty)
daily-return series — never a division by zero or an infinity — and otherwise
returns mean excess daily return over the population standard deviation of
excess daily return, times `sqrt 252`, with the daily risk-free rate obtained
from the annual rate by compound inversion `(1+rf)^(1/252) - 1`. -/
theorem sharpe_ratio_spec :
    (∀ (rets : List ℝ) (c rf : ℝ), (∀ x ∈ rets, x = c) →
      sharpe_ratio rets rf = 0) ∧
    (∀ (rets : List ℝ) (rf : ℝ),
      stdDev0 (rets.map (fun r => r - (Real.rpow (1 + rf) (1 / 252) - 1))) ≠ 0 →
      sharpe_ratio rets rf =
        (seriesMean (rets.map (fun r => r - (Real.rpow (1 + rf) (1 / 252) - 1))) /
            stdDev0 (rets.map (fun r => r - (Real.rpow (1 + rf) (1 / 252) - 1)))) *
          Real.sqrt 252) := by
  constructor
  · intro rets c rf h
    simp only [sharpe_ratio]
    have hvol : stdDev0 (rets.map
        (fun r => r - (Real.rpow (1 + rf) (1 / 252) - 1))) = 0 := by
      refine stdDev0_const _ (c - (Real.rpow (1 + rf) (1 / 252) - 1)) ?_
      intro y hy
      obtain ⟨x, hx, rfl⟩ := List.mem_map.mp hy
      rw [h x hx]
    rw [if_pos (Or.inl hvol)]
  · intro rets rf hvol
    have hne : rets ≠ [] := by
      rintro rfl
      exact hvol (by simp [stdDev0, seriesMean])
    simp only [sharpe_ratio]
    have hcond : ¬ (stdDev0 (rets.map
        (fun r => r - (Real.rpow (1 + rf) (1 / 252) - 1))) = 0 ∨ rets = []) := by
      rintro (h | h)
      · exact hvol h
      · exact hne h
    rw [if_neg hcond]

/-- Witness for C5: a constant return series with a nonzero risk-free rate
gives Sharpe exactly 0. -/
theorem sharpe_ratio_spec_witness :
    sharpe_ratio [(1 : ℝ) / 2, 1 / 2, 1 / 2] (1 / 100) = 0 :=
  sharpe_ratio_spec.1 [(1 : ℝ) / 2, 1 / 2, 1 / 2] (1 / 2) (1 / 100) (by norm_num)

/-!
## `signals/indicators.py` — rolling indicators and `compute_signals`

pandas window validation (`BaseWindow._validate`): an integer `window < 0`
raises `ValueError("window must be an integer 0 or greater")`; `window = 0` is
accepted (`min_periods` defaults to the window size, so every aggregate of the
empty window is `NaN`).  A rolling aggregate is `NaN` until its window is full
of non-`NaN` observations, and `rolling(w).std()` (sample std, `ddof=1`)
additionally needs `w ≥ 2` observations.
-/

/-- `IndicatorConfig` (indicators.py:9-15). -/
structure IndicatorConfig where
  return_window : ℤ := 1
  vol_window : ℤ := 20
  ma_short : ℤ := 10
  ma_long : ℤ := 30
  deviation_threshold : ℚ := 3 / 100

/-- Values of `rolling(window=w).mean()` over a total series: the mean of
`xs[t-w+1..t]` once the window fits, `NaN` before (and everywhere if `w = 0`). -/
def rollingMeanVals (w : ℤ) (xs : List ℚ) : List (Option ℚ) :=
  tabulate xs.length (fun t =>
    if 1 ≤ w ∧ w ≤ (t : ℤ) + 1 then
      some ((((List.range w.toNat).map (fun j => xs.getD (t - j) 0)).sum) / (w : ℚ))
    else none)

/-- `compute_moving_average` (indicators.py:35-39): `series.rolling(window).mean()`
with the pandas window validator in front. -/
def compute_moving_average (series : List ℚ) (window : ℤ) :
    Except String (List (Option ℚ)) :=
  if window < 0 then .error "ValueError: window must be an integer 0 or greater"
  else .ok (rollingMeanVals window series)

/-- Values of `rolling(window=w).std()` (sample std, `ddof=1`) over a series
that may hold `NaN`: defined at `t` iff the window fits, holds no `NaN`, and
`w ≥ 2`; the value is the square root of the sample variance of the window. -/
noncomputable def rollingStdVals (w : ℤ) (xs : List (Option ℚ)) : List (Option ℝ) :=
  tabulate xs.length (fun t =>
    if 2 ≤ w ∧ w ≤ (t : ℤ) + 1 ∧ (∀ j ∈ List.range w.toNat, xs.getD (t - j) none ≠ none) then
      let vals := (List.range w.toNat).map (fun j => (xs.getD (t - j) none).getD 0)
      let m := vals.sum / (w : ℚ)
      some (Real.sqrt (((vals.map (fun x => (x - m) ^ 2)).sum / ((w : ℚ) - 1) : ℚ) : ℝ))
    else none)

/-- `compute_volatility` (indicators.py:28-32): `returns.rolling(window).std()`. -/
noncomputable def compute_volatility (returns : List (Option ℚ)) (window : ℤ) :
    Except String (List (Option ℝ)) :=
  if window < 0 then .error "ValueError: window must be an integer 0 or greater"
  else .ok (rollingStdVals window returns)

/-- `compute_returns` (indicators.py:18-25): `ValueError` when the frame has no
`Adj Close` column, else `pct_change()` of it. -/
def compute_returns (adj_close? : Option (List ℚ)) : Except String (List (Option ℚ)) :=
  match adj_close? with
  | none => .error "ValueError: Expected Adj Close column"
  | some p => .ok (pctChange p)

/-- The `deviation` column `(out["Adj Close"] - out["ma_long"]) / out["ma_long"]`:
`NaN` wherever `ma_long` is. -/
def deviationVals (adj_close : List ℚ) (ma_long : List (Option ℚ)) : List (Option ℚ) :=
  tabulate adj_close.length (fun t =>
    (ma_long.getD t none).map (fun m => (adj_close.getD t 0 - m) / m))

/-- The `signal` column `out["deviation"].abs() > threshold`: comparisons
against `NaN` are `False`, so the column is total boolean. -/
def signalVals (deviation : List (Option ℚ)) (threshold : ℚ) (n : ℕ) : List Bool :=
  tabulate n (fun t =>
    match deviation.getD t none with
    | none => false
    | some d => decide (threshold < |d|))

/-- The indicator frame built by `compute_signals` (the columns it adds). -/
structure IndicatorFrame where
  adj_close : List ℚ
  returns : List (Option ℚ)
  volatility : List (Option ℝ)
  ma_short : List (Option ℚ)
  ma_long : List (Option ℚ)
  deviation : List (Option ℚ)
  signal : List Bool

/-- `compute_signals` (indicators.py:42-71).  Line 51 `out["Adj Close"]`
raises `KeyError` when the column is absent (before `compute_returns` could
raise its `ValueError`); then returns, volatility, `ma_short` and `ma_long`
are computed in source order, each able to surface the pandas window
validator's error. -/
noncomputable def compute_signals (adj_close? : Option (List ℚ))
    (cfg : IndicatorConfig) : Except String IndicatorFrame := do
  let adj_close ← match adj_close? with
    | none => Except.error "KeyError: Adj Close"
    | some p => Except.ok p
  let returns ← compute_returns adj_close?
  let volatility ← compute_volatility returns cfg.vol_window
  let ma_s ← compute_moving_average adj_close cfg.ma_short
  let ma_l ← compute_moving_average adj_close cfg.ma_long
  let deviation := deviationVals adj_close ma_l
  let signal := signalVals deviation cfg.deviation_threshold adj_close.length
  Except.ok
    { adj_close := adj_close
      returns := returns
      volatility := volatility
      ma_short := ma_s
      ma_long := ma_l
      deviation := deviation
      signal := signal }

/-- With a price column present and non-negative windows, `compute_signals`
succeeds and returns exactly the frame of the column formulas. -/
theorem compute_signals_ok (p : List ℚ) (cfg : IndicatorConfig)
    (hv : 0 ≤ cfg.vol_window) (hs : 0 ≤ cfg.ma_short) (hl : 0 ≤ cfg.ma_long) :
    compute_signals (some p) cfg = .ok
      { adj_close := p
        returns := pctChange p
        volatility := rollingStdVals cfg.vol_window (pctChange p)
        ma_short := rollingMeanVals cfg.ma_short p
        ma_long := rollingMeanVals cfg.ma_long p
        deviation := deviationVals p (rollingMeanVals cfg.ma_long p)
        signal := signalVals (deviationVals p (rollingMeanVals cfg.ma_long p))
          cfg.deviation_threshold p.length } := by
  have hv' : ¬ cfg.vol_window < 0 := by omega
  have hs' : ¬ cfg.ma_short < 0 := by omega
  have hl' : ¬ cfg.ma_long < 0 := by omega
  simp only [compute_signals, compute_returns, compute_volatility,
    compute_moving_average, hv', hs', hl', if_false, ite_false]
  rfl

theorem compute_signals_none (cfg : IndicatorConfig) :
    compute_signals none cfg = .error "KeyError: Adj Close" := rfl

theorem compute_signals_err_vol (p : List ℚ) (cfg : IndicatorConfig)
    (h : cfg.vol_window < 0) :
    compute_signals (some p) cfg =
      .error "ValueError: window must be an integer 0 or greater" := by
  simp only [compute_signals, compute_returns, compute_volatility, h, if_true, ite_true]
  rfl

theorem compute_signals_err_ms (p : List ℚ) (cfg : IndicatorConfig)
    (hv : 0 ≤ cfg.vol_window) (h : cfg.ma_short < 0) :
    compute_signals (some p) cfg =
      .error "ValueError: window must be an integer 0 or greater" := by
  have hv' : ¬ cfg.vol_window < 0 := by omega
  simp only [compute_signals, compute_returns, compute_volatility,
    compute_moving_average, hv', h, if_true, ite_true, if_false, ite_false]
  rfl

theorem compute_signals_err_ml (p : List ℚ) (cfg : IndicatorConfig)
    (hv : 0 ≤ cfg.vol_window) (hs : 0 ≤ cfg.ma_short) (h : cfg.ma_long < 0) :
    compute_signals (some p) cfg =
      .error "ValueError: window must be an integer 0 or greater" := by
  have hv' : ¬ cfg.vol_window < 0 := by omega
  have hs' : ¬ cfg.ma_short < 0 := by omega
  simp only [compute_signals, compute_returns, compute_volatility,
    compute_moving_average, hv', hs', h, if_true, ite_true, if_false, ite_false]
  rfl

theorem rollingMeanVals_nonpos (w : ℤ) (xs : List ℚ) (hw : w ≤ 0) (t : ℕ) :
    (rollingMeanVals w xs).getD t none = none := by
  rw [rollingMeanVals, tabulate_getD]
  by_cases ht : t < xs.length
  · rw [if_pos ht, if_neg (by omega)]
  · rw [if_neg ht]

theorem deviationVals_none (p : List ℚ) (ml : List (Option ℚ)) (t : ℕ)
    (h : ml.getD t none = none) : (deviationVals p ml).getD t none = none := by
  rw [deviationVals, tabulate_getD]
  by_cases ht : t < p.length
  · rw [if_pos ht, h]
    rfl
  · rw [if_neg ht]

theorem signalVals_false_of_none (dev : List (Option ℚ)) (thr : ℚ) (n t : ℕ)
    (h : dev.getD t none = none) : (signalVals dev thr n).getD t false = false := by
  rw [signalVals, tabulate_getD]
  by_cases ht : t < n
  · rw [if_pos ht, h]
  · rw [if_neg ht]

/-- C6 (amended): `compute_signals` fails with a `KeyError` when the input
lacks the price column, and with the pandas window validator's `ValueError`
when `vol_window`, `ma_short` or `ma_long` is negative (surfaced in source
order); but a window of `0` — also not a positive integer — is NOT rejected:
pandas accepts `rolling(window=0)`, so `compute_signals` silently succeeds,
with the zero-window long moving average all-`NaN` and the signal column
all-`False`. -/
theorem compute_signals_error_conditions :
    (∀ cfg : IndicatorConfig,
      compute_signals none cfg = .error "KeyError: Adj Close") ∧
    (∀ (p : List ℚ) (cfg : IndicatorConfig), cfg.vol_window < 0 →
      compute_signals (some p) cfg =
        .error "ValueError: window must be an integer 0 or greater") ∧
    (∀ (p : List ℚ) (cfg : IndicatorConfig), 0 ≤ cfg.vol_window → cfg.ma_short < 0 →
      compute_signals (some p) cfg =
        .error "ValueError: window must be an integer 0 or greater") ∧
    (∀ (p : List ℚ) (cfg : IndicatorConfig), 0 ≤ cfg.vol_window → 0 ≤ cfg.ma_short →
      cfg.ma_long < 0 →
      compute_signals (some p) cfg =
        .error "ValueError: window must be an integer 0 or greater") ∧
    (∀ (p : List ℚ) (cfg : IndicatorConfig), 0 ≤ cfg.vol_window → 0 ≤ cfg.ma_short →
      cfg.ma_long = 0 →
      ∃ f, compute_signals (some p) cfg = .ok f ∧
        (∀ t, f.ma_long.getD t none = none) ∧
        (∀ t, f.signal.getD t false = false)) := by
  refine ⟨compute_signals_none, compute_signals_err_vol, compute_signals_err_ms,
    compute_signals_err_ml, ?_⟩
  intro p cfg hv hs hl
  refine ⟨_, compute_signals_ok p cfg hv hs (by omega), ?_, ?_⟩
  · intro t
    exact rollingMeanVals_nonpos cfg.ma_long p (by omega) t
  · intro t
    exact signalVals_false_of_none _ _ _ t
      (deviationVals_none p _ t (rollingMeanVals_nonpos cfg.ma_long p (by omega) t))

/-- C6 counterexample: `ma_long = 0` is not a positive integer, yet
`compute_signals` succeeds instead of failing — no `ConfigurationError` is
raised for a zero window. -/
theorem compute_signals_zero_window_cex :
    (compute_signals (some [(1 : ℚ), 2, 3]) { ma_long := 0 }).isOk = true := rfl

/-- Witness for C6 (amended): a negative `vol_window` does surface the
validator's error. -/
theorem compute_signals_error_conditions_witness :
    compute_signals (some [(1 : ℚ), 2]) { vol_window := -1 } =
      .error "ValueError: window must be an integer 0 or greater" :=
  compute_signals_error_conditions.2.1 [(1 : ℚ), 2] { vol_window := -1 } (by decide)

theorem sigAt_map_some (s : List Bool) (i : ℕ) :
    sigAt (s.map some) i = s.getD i false := by
  rcases Nat.lt_or_ge i s.length with h | h
  · simp [sigAt, List.getD_eq_getElem?_getD, List.getElem?_map,
      List.getElem?_eq_getElem h]
  · simp [sigAt, List.getD_eq_getElem?_getD,
      List.getElem?_eq_none (by simpa using h),
      List.getElem?_eq_none (by simpa using h : s.length ≤ i)]

theorem length_signalVals (dev : List (Option ℚ)) (thr : ℚ) (n : ℕ) :
    (signalVals dev thr n).length = n :=
  length_tabulate _ _

/-- C10: the signal column of `compute_signals` is a total boolean series —
`False` (not undefined) wherever `long_ma` (hence `deviation`) is undefined —
the backtest's `fillna(False)` coerces missing signal values to `False`
without changing the built position, and through the warm-up period the
strategy stays fully invested (`position = 1`). -/
theorem signal_total_warmup :
    (∀ (s : List (Option Bool)) (cd : ℤ),
      build_position_from_signal s cd =
        build_position_from_signal (s.map (fun o => some (o.getD false))) cd) ∧
    (∀ (p : List ℚ) (cfg : IndicatorConfig) (f : IndicatorFrame),
      compute_signals (some p) cfg = .ok f →
      f.signal.length = p.length ∧
      (∀ t, f.ma_long.getD t none = none → f.signal.getD t false = false) ∧
      (∀ (cd : ℤ), 1 ≤ cd → ∀ (bt : BacktestFrame),
        compute_equity_curves f.adj_close (f.signal.map some) cd = .ok bt →
        ∀ t, t < p.length → (∀ i, i < t → f.ma_long.getD i none = none) →
          bt.position.getD t 0 = 1)) := by
  constructor
  · intro s cd
    have hmap : (s.map (fun o => some (o.getD false))).map (fun o => o.getD false) =
        s.map (fun o => o.getD false) := by
      rw [List.map_map]
      rfl
    simp only [build_position_from_signal, hmap]
  · intro p cfg f hok
    have hv : ¬ cfg.vol_window < 0 := by
      intro h
      rw [compute_signals_err_vol p cfg h] at hok
      exact absurd hok (by simp)
    have hs : ¬ cfg.ma_short < 0 := by
      intro h
      rw [compute_signals_err_ms p cfg (by omega) h] at hok
      exact absurd hok (by simp)
    have hl : ¬ cfg.ma_long < 0 := by
      intro h
      rw [compute_signals_err_ml p cfg (by omega) (by omega) h] at hok
      exact absurd hok (by simp)
    rw [compute_signals_ok p cfg (by omega) (by omega) (by omega)] at hok
    simp only [Except.ok.injEq] at hok
    subst hok
    dsimp only
    refine ⟨length_signalVals _ _ _, ?_, ?_⟩
    · intro t hml
      exact signalVals_false_of_none _ _ _ t (deviationVals_none p _ t hml)
    · intro cd hcd bt hbt t ht hwarm
      obtain ⟨pos, hpos⟩ := build_position_ok
        ((signalVals (deviationVals p (rollingMeanVals cfg.ma_long p))
          cfg.deviation_threshold p.length).map some) cd (by omega)
      rw [compute_equity_curves_ok _ _ cd pos hpos] at hbt
      simp only [Except.ok.injEq] at hbt
      subst hbt
      dsimp only
      rw [build_position_getD_char _ cd hcd pos hpos t
        (by rw [List.length_map, length_signalVals]; exact ht)]
      rw [if_neg]
      rintro ⟨i, hi, hsig, hit, hicd⟩
      rw [sigAt_map_some] at hsig
      have : (signalVals (deviationVals p (rollingMeanVals cfg.ma_long p))
          cfg.deviation_threshold p.length).getD i false = false :=
        signalVals_false_of_none _ _ _ i (deviationVals_none p _ i (hwarm i hit))
      rw [this] at hsig
      exact Bool.false_ne_true hsig

/-- Witness for C10: `fillna(False)` does not change the position built from
`[True, NaN]`, and on a 2-row series with the default 30-session long window
(warm-up everywhere) the signal at row 0 is `False`, not undefined. -/
theorem signal_total_warmup_witness :
    (build_position_from_signal [some true, none] 3 =
      build_position_from_signal
        ([some true, none].map (fun o => some (o.getD false))) 3) ∧
    (signalVals (deviationVals [(1 : ℚ), 1] (rollingMeanVals 30 [(1 : ℚ), 1]))
        (3 / 100) 2).getD 0 false = false :=
  ⟨signal_total_warmup.1 [some true, none] 3,
   (signal_total_warmup.2 [(1 : ℚ), 1] {} _
      (compute_signals_ok [(1 : ℚ), 1] {} (by decide) (by decide) (by decide))).2.1 0
      (by decide)⟩

/-!
## `signals/backtest.py` — `annualized_return`, `annualized_volatility`,
`summarize_backtest`
-/

/-- `annualized_return` (backtest.py:97-107). -/
noncomputable def annualized_return (equity : List ℚ)
    (periods_per_year : ℝ := 252) : ℝ :=
  if equity.length < 2 then 0
  else
    let total_return : ℝ :=
      ((equity.getD (equity.length - 1) 0 / equity.getD 0 0 : ℚ) : ℝ) - 1
    let years : ℝ := ((equity.length : ℝ) - 1) / periods_per_year
    if years ≤ 0 then total_return
    else Real.rpow (1 + total_return) (1 / years) - 1

/-- `annualized_volatility` (backtest.py:110-111): `std(ddof=0) * sqrt(252)`. -/
noncomputable def annualized_volatility (daily_returns : List ℚ)
    (periods_per_year : ℝ := 252) : ℝ :=
  stdDev0 (daily_returns.map (fun r => (r : ℝ))) * Real.sqrt periods_per_year

/-- The metrics DataFrame built by `summarize_backtest`: one entry per
portfolio row (index 0 = `buy_hold`, index 1 = `strategy`) in each column. -/
structure MetricsTable where
  portfolio : List String
  total_return : List ℚ
  ann_return : List ℝ
  ann_vol : List ℝ
  max_drawdown : List (Option ℚ)
  sharpe : List ℝ

/-- The column labels of the metrics DataFrame, exactly the dictionary keys of
backtest.py:141-150, in order. -/
def summarize_backtest_columns : List String :=
  ["portfolio", "total_return", "ann_return", "ann_vol", "max_drawdown", "sharpe"]

/-- `summarize_backtest` (backtest.py:130-151).  (`iloc[-1]` on an empty frame
would raise `IndexError`; theorems apply this to nonempty frames, where
`getD (length - 1)` is exact.) -/
noncomputable def summarize_backtest (bt : BacktestFrame) : MetricsTable :=
  { portfolio := ["buy_hold", "strategy"]
    total_return := [bt.bh_equity.getD (bt.bh_equity.length - 1) 0 - 1,
                     bt.strat_equity.getD (bt.strat_equity.length - 1) 0 - 1]
    ann_return := [annualized_return bt.bh_equity, annualized_return bt.strat_equity]
    ann_vol := [annualized_volatility bt.daily_ret, annualized_volatility bt.strat_ret]
    max_drawdown := [max_drawdown bt.bh_equity, max_drawdown bt.strat_equity]
    sharpe := [sharpe_ratio (bt.daily_ret.map (fun r => (r : ℝ))),
               sharpe_ratio (bt.strat_ret.map (fun r => (r : ℝ)))] }

/-- C4 (code bug): the metrics table of `summarize_backtest` carries exactly
the columns `portfolio`, `total_return`, `ann_return`, `ann_vol`,
`max_drawdown`, `sharpe` — no Calmar-ratio column in either casing, although
the dashboard caller (`market_app.py`'s `format_metrics_table` rounds
`m["Calmar"]`) and the spec's Performance Summarizer contract require one. -/
theorem summarize_backtest_no_calmar :
    summarize_backtest_columns =
      ["portfolio", "total_return", "ann_return", "ann_vol", "max_drawdown",
       "sharpe"] ∧
    "calmar" ∉ summarize_backtest_columns ∧
    "Calmar" ∉ summarize_backtest_columns :=
  ⟨rfl, by decide, by decide⟩

/-!
## `signals/sweep.py` — `run_sweep`

```python
for dev in cfg.dev_pcts:
    ind_cfg = IndicatorConfig(ma_short=.., ma_long=.., deviation_threshold=dev/100.0)
    sig_df = compute_signals(df, ind_cfg)
    sig_count = int(sig_df["signal"].sum())
    for cd in cfg.cooldown_days:
        bt = compute_equity_curves(sig_df, cooldown_days=cd)
        metrics = summarize_backtest(bt)
        strat = metrics[metrics["Portfolio"] == "Tactical Risk-Off"].iloc[0]
        bh = metrics[metrics["Portfolio"] == "Buy & Hold"].iloc[0]
        results.append({..., float(strat["Total Return"]), ...})
return pd.DataFrame(results)
```

The nested loops are modelled leaf-first: `sweepCell` is one inner-loop body,
`sweepDev` one outer-loop body, `run_sweep` the fold of `sweepDev`.
-/

/-- `SweepConfig` (sweep.py:11-18). -/
structure SweepConfig where
  ma_short : ℤ := 10
  ma_long : ℤ := 30
  dev_pcts : List ℚ := [1, 2, 3, 4, 5, 6]
  cooldown_days : List ℤ := [1, 3, 5, 7, 10, 15]

/-- One row appended to `results` by the inner loop of `run_sweep`. -/
structure SweepRow where
  dev_pct : ℚ
  cooldown_days : ℤ
  signal_count : ℕ
  strategy_total_return : ℝ
  strategy_sharpe : ℝ
  strategy_max_dd : ℝ
  buyhold_total_return : ℝ
  buyhold_sharpe : ℝ
  delta_total_return : ℝ
  delta_sharpe : ℝ

/-- `metrics[metrics[col] == label].iloc[0]` as a row index: pandas boolean
indexing first looks `col` up among the metrics columns and raises `KeyError`
when it is absent; with the (lower-case) portfolio column present, the row
whose portfolio label matches would be selected, `iloc[0]` raising
`IndexError` when no row matches. -/
def metricsSelectRow (col label : String) : Except String ℕ :=
  if col ∈ summarize_backtest_columns then
    if label = "buy_hold" then .ok 0
    else if label = "strategy" then .ok 1
    else .error "IndexError: single positional indexer is out-of-bounds"
  else .error ("KeyError: " ++ col)

/-- `row[field]` on a metrics row, as a float: `KeyError` when `field` is not
a column of the metrics table (the Title-Case labels `run_sweep` asks for
never are). -/
noncomputable def metricsRowGet (m : MetricsTable) (row : ℕ) (field : String) :
    Except String ℝ :=
  if field = "total_return" then .ok ((m.total_return.getD row 0 : ℚ) : ℝ)
  else if field = "ann_return" then .ok (m.ann_return.getD row 0)
  else if field = "ann_vol" then .ok (m.ann_vol.getD row 0)
  else if field = "max_drawdown" then
    .ok (((m.max_drawdown.getD row none).getD 0 : ℚ) : ℝ)
  else if field = "sharpe" then .ok (m.sharpe.getD row 0)
  else .error ("KeyError: " ++ field)

/-- The body of the inner `for cd in cfg.cooldown_days` loop (sweep.py:36-62). -/
noncomputable def sweepCell (sig_df : IndicatorFrame) (sig_count : ℕ) (dev : ℚ)
    (results : List SweepRow) (cd : ℤ) : Except String (List SweepRow) := do
  let bt ← compute_equity_curves sig_df.adj_close (sig_df.signal.map some) cd
  let metrics := summarize_backtest bt
  let stratRow ← metricsSelectRow "Portfolio" "Tactical Risk-Off"
  let bhRow ← metricsSelectRow "Portfolio" "Buy & Hold"
  let s_tr ← metricsRowGet metrics stratRow "Total Return"
  let s_sh ← metricsRowGet metrics stratRow "Sharpe"
  let s_dd ← metricsRowGet metrics stratRow "Max Drawdown"
  let b_tr ← metricsRowGet metrics bhRow "Total Return"
  let b_sh ← metricsRowGet metrics bhRow "Sharpe"
  let row : SweepRow :=
    { dev_pct := dev, cooldown_days := cd, signal_count := sig_count,
      strategy_total_return := s_tr, strategy_sharpe := s_sh, strategy_max_dd := s_dd,
      buyhold_total_return := b_tr, buyhold_sharpe := b_sh,
      delta_total_return := s_tr - b_tr, delta_sharpe := s_sh - b_sh }
  pure (results ++ [row])

/-- The body of the outer `for dev in cfg.dev_pcts` loop (sweep.py:24-62). -/
noncomputable def sweepDev (adj_close? : Option (List ℚ)) (cfg : SweepConfig)
    (results : List SweepRow) (dev : ℚ) : Except String (List SweepRow) := do
  let sig_df ← compute_signals adj_close?
    { ma_short := cfg.ma_short, ma_long := cfg.ma_long,
      deviation_threshold := dev / 100 }
  let sig_count := (sig_df.signal.filter (fun b => b)).length
  cfg.cooldown_days.foldlM (sweepCell sig_df sig_count dev) results

/-- `run_sweep` (sweep.py:21-64). -/
noncomputable def run_sweep (adj_close? : Option (List ℚ)) (cfg : SweepConfig) :
    Except String (List SweepRow) :=
  cfg.dev_pcts.foldlM (sweepDev adj_close? cfg) []

theorem sweepCell_error (sig_df : IndicatorFrame) (sig_count : ℕ) (dev : ℚ)
    (results : List SweepRow) (cd : ℤ) (hcd : 0 < cd) :
    sweepCell sig_df sig_count dev results cd = .error "KeyError: Portfolio" := by
  obtain ⟨pos, hpos⟩ := build_position_ok (sig_df.signal.map some) cd hcd
  rw [sweepCell, compute_equity_curves_ok _ _ cd pos hpos]
  rfl

theorem foldlM_sweepCell_error (sig_df : IndicatorFrame) (sig_count : ℕ) (dev : ℚ)
    (results : List SweepRow) (c : ℤ) (cs : List ℤ) (hc : 0 < c) :
    (c :: cs).foldlM (sweepCell sig_df sig_count dev) results =
      .error "KeyError: Portfolio" := by
  rw [List.foldlM_cons, sweepCell_error sig_df sig_count dev results c hc]
  rfl

theorem sweepDev_error (adj_close? : Option (List ℚ)) (cfg : SweepConfig)
    (results : List SweepRow) (dev : ℚ) (sig_df : IndicatorFrame)
    (hsig : compute_signals adj_close?
      { ma_short := cfg.ma_short, ma_long := cfg.ma_long,
        deviation_threshold := dev / 100 } = .ok sig_df)
    (c : ℤ) (cs : List ℤ) (hcds : cfg.cooldown_days = c :: cs) (hc : 0 < c) :
    sweepDev adj_close? cfg results dev = .error "KeyError: Portfolio" := by
  rw [sweepDev, hsig]
  show cfg.cooldown_days.foldlM
    (sweepCell sig_df ((sig_df.signal.filter (fun b => b)).length) dev) results = _
  rw [hcds]
  exact foldlM_sweepCell_error sig_df _ dev results c cs hc

/-- C1 (code bug): on every nonempty sweep grid with valid windows and
positive cooldowns, `run_sweep` does not return one row per grid pair — it
raises `KeyError: 'Portfolio'` on the very first cell, because it reads the
Title-Case columns (`Portfolio`, `Total Return`, …) while `summarize_backtest`
emits snake_case columns (`portfolio`, `total_return`, …). -/
theorem run_sweep_keyerror (p : List ℚ) (cfg : SweepConfig)
    (hms : 0 ≤ cfg.ma_short) (hml : 0 ≤ cfg.ma_long)
    (hdev : cfg.dev_pcts ≠ []) (hcds : cfg.cooldown_days ≠ [])
    (hcd1 : ∀ cd ∈ cfg.cooldown_days, 0 < cd) :
    run_sweep (some p) cfg = .error "KeyError: Portfolio" := by
  obtain ⟨d, ds, hd⟩ := List.exists_cons_of_ne_nil hdev
  obtain ⟨c, cs, hc⟩ := List.exists_cons_of_ne_nil hcds
  have hc0 : 0 < c := hcd1 c (by rw [hc]; exact List.mem_cons_self c cs)
  rw [run_sweep, hd, List.foldlM_cons,
    sweepDev_error (some p) cfg [] d _
      (compute_signals_ok p
        { ma_short := cfg.ma_short, ma_long := cfg.ma_long,
          deviation_threshold := d / 100 }
        (by show (0 : ℤ) ≤ 20; norm_num) hms hml) c cs hc hc0]
  rfl

/-- Witness for C1: the 3-threshold × 2-cooldown grid of the spec's own test
raises the `KeyError` instead of producing 6 rows. -/
theorem run_sweep_keyerror_witness :
    run_sweep (some [(1 : ℚ), 2, 3])
      { dev_pcts := [1, 2, 3], cooldown_days := [5, 10] } =
      .error "KeyError: Portfolio" :=
  run_sweep_keyerror [(1 : ℚ), 2, 3]
    { dev_pcts := [1, 2, 3], cooldown_days := [5, 10] }
    (by decide) (by decide) (by decide) (by decide) (by decide)

/-!
## `signals/evaluation.py` — forward returns and signal-performance summary

```python
def compute_forward_returns(adj_close, horizon_days):
    if horizon_days <= 0:
        raise ValueError("horizon_days must be > 0")
    future_price = adj_close.shift(-horizon_days)
    fwd = (future_price / adj_close) - 1.0
    return fwd

def summarize_signal_performance(df, signal_col, price_col, horizon_days):
    ...
    fwd = compute_forward_returns(adj, horizon_days=horizon_days)
    tmp[f"fwd_ret_{horizon_days}d"] = fwd
    tmp = tmp.dropna(subset=[...])
    sig = tmp[tmp[signal_col] == True][...]
    nonsig = tmp[tmp[signal_col] == False][...]
    overall = tmp[...]
    ... count / mean / median per group ...
```

The column-presence checks are carried by the typed price and signal
arguments.
-/

/-- The forward-return column `adj_close.shift(-h) / adj_close - 1`: `NaN` on
the last `h` rows (where `shift(-h)` is `NaN`). -/
def fwdVals (adj_close : List ℚ) (h : ℕ) : List (Option ℚ) :=
  tabulate adj_close.length (fun t =>
    if t + h < adj_close.length then
      some (adj_close.getD (t + h) 0 / adj_close.getD t 0 - 1)
    else none)

/-- `compute_forward_returns` (evaluation.py:13-25). -/
def compute_forward_returns (adj_close : List ℚ) (horizon_days : ℤ) :
    Except String (List (Option ℚ)) :=
  if horizon_days ≤ 0 then .error "ValueError: horizon_days must be > 0"
  else .ok (fwdVals adj_close horizon_days.toNat)

/-- `Series.mean()`: `NaN` on an empty series, else the arithmetic mean. -/
def seriesMeanQ (xs : List ℚ) : Option ℚ :=
  if xs = [] then none else some (xs.sum / xs.length)

/-- `Series.median()`: `NaN` on an empty series; else sort and take the middle
element (odd length) or the mean of the two middle elements (even length). -/
def seriesMedianQ (xs : List ℚ) : Option ℚ :=
  if xs = [] then none
  else
    let s := List.insertionSort (· ≤ ·) xs
    if xs.length % 2 = 1 then some (s.getD (xs.length / 2) 0)
    else some ((s.getD (xs.length / 2 - 1) 0 + s.getD (xs.length / 2) 0) / 2)

/-- The summary table of `summarize_signal_performance`: the `group`, `count`,
`mean_fwd_return` and `median_fwd_return` columns, each with the three rows
`signal_days`, `non_signal_days`, `overall`. -/
structure SignalSummary where
  group : List String
  count : List ℕ
  mean_fwd_return : List (Option ℚ)
  median_fwd_return : List (Option ℚ)

/-- `summarize_signal_performance` (evaluation.py:28-74).  `dropna` keeps the
row indices whose forward return is defined; the three groups then partition
those kept rows by the boolean signal column. -/
def summarize_signal_performance (price : List ℚ) (signal : List Bool)
    (horizon_days : ℤ) : Except String SignalSummary :=
  match compute_forward_returns price horizon_days with
  | .error e => .error e
  | .ok fwd =>
  let kept := (List.range price.length).filter (fun t => (fwd.getD t none).isSome)
  let sigVals := (kept.filter (fun t => signal.getD t false)).map
    (fun t => (fwd.getD t none).getD 0)
  let nonsigVals := (kept.filter (fun t => !(signal.getD t false))).map
    (fun t => (fwd.getD t none).getD 0)
  let overallVals := kept.map (fun t => (fwd.getD t none).getD 0)
  Except.ok
    { group := ["signal_days", "non_signal_days", "overall"]
      count := [sigVals.length, nonsigVals.length, overallVals.length]
      mean_fwd_return := [seriesMeanQ sigVals, seriesMeanQ nonsigVals,
                          seriesMeanQ overallVals]
      median_fwd_return := [seriesMedianQ sigVals, seriesMedianQ nonsigVals,
                            seriesMedianQ overallVals] }

theorem range_filter_lt (n m : ℕ) (hm : m ≤ n) :
    (List.range n).filter (fun t => decide (t < m)) = List.range m := by
  induction n with
  | zero =>
    have : m = 0 := by omega
    subst this
    rfl
  | succ n ih =>
    rw [List.range_succ, List.filter_append]
    by_cases hmn : m ≤ n
    · rw [ih hmn]
      have h0 : (List.filter (fun t => decide (t < m)) [n]) = [] := by
        rw [List.filter_cons, if_neg (by simp only [decide_eq_true_eq]; omega)]
        rfl
      rw [h0, List.append_nil]
    · have hm1 : m = n + 1 := by omega
      subst hm1
      have h1 : List.filter (fun t => decide (t < n + 1)) (List.range n) =
          List.range n :=
        List.filter_eq_self.mpr (fun a ha => by
          simp only [decide_eq_true_eq]
          have := List.mem_range.mp ha
          omega)
      have h2 : List.filter (fun t => decide (t < n + 1)) [n] = [n] := by
        rw [List.filter_cons, if_pos (by simp only [decide_eq_true_eq]; omega)]
        rfl
      rw [h1, h2, ← List.range_succ]

theorem fwdVals_getD (price : List ℚ) (h t : ℕ) (ht : t < price.length) :
    (fwdVals price h).getD t none =
      if t + h < price.length then
        some (price.getD (t + h) 0 / price.getD t 0 - 1)
      else none := by
  rw [fwdVals, tabulate_getD, if_pos ht]

/-- C7: `forward_return[t] = price[t+h]/price[t] - 1` is defined exactly off
the last `h` rows, and `summarize_signal_performance` computes every group's
count, mean and median over exactly the rows `t < n - h` — the undefined
tail is excluded, never treated as zero. -/
theorem forward_return_exclusion (price : List ℚ) (signal : List Bool) (h : ℤ)
    (hh : 1 ≤ h) :
    (∀ t, t < price.length →
      (((fwdVals price h.toNat).getD t none ≠ none) ↔
        (t : ℤ) + h < price.length)) ∧
    (∀ t, t + h.toNat < price.length →
      (fwdVals price h.toNat).getD t none =
        some (price.getD (t + h.toNat) 0 / price.getD t 0 - 1)) ∧
    (summarize_signal_performance price signal h).map (fun s => s.count) =
      .ok [((List.range (price.length - h.toNat)).filter
              (fun t => signal.getD t false)).length,
           ((List.range (price.length - h.toNat)).filter
              (fun t => !(signal.getD t false))).length,
           price.length - h.toNat] ∧
    (summarize_signal_performance price signal h).map (fun s => s.mean_fwd_return) =
      .ok [seriesMeanQ (((List.range (price.length - h.toNat)).filter
              (fun t => signal.getD t false)).map
              (fun t => price.getD (t + h.toNat) 0 / price.getD t 0 - 1)),
           seriesMeanQ (((List.range (price.length - h.toNat)).filter
              (fun t => !(signal.getD t false))).map
              (fun t => price.getD (t + h.toNat) 0 / price.getD t 0 - 1)),
           seriesMeanQ ((List.range (price.length - h.toNat)).map
              (fun t => price.getD (t + h.toNat) 0 / price.getD t 0 - 1))] ∧
    (summarize_signal_performance price signal h).map
        (fun s => s.median_fwd_return) =
      .ok [seriesMedianQ (((List.range (price.length - h.toNat)).filter
              (fun t => signal.getD t false)).map
              (fun t => price.getD (t + h.toNat) 0 / price.getD t 0 - 1)),
           seriesMedianQ (((List.range (price.length - h.toNat)).filter
              (fun t => !(signal.getD t false))).map
              (fun t => price.getD (t + h.toNat) 0 / price.getD t 0 - 1)),
           seriesMedianQ ((List.range (price.length - h.toNat)).map
              (fun t => price.getD (t + h.toNat) 0 / price.getD t 0 - 1))] := by
  have hval : ∀ t, t + h.toNat < price.length →
      (fwdVals price h.toNat).getD t none =
        some (price.getD (t + h.toNat) 0 / price.getD t 0 - 1) := by
    intro t ht
    rw [fwdVals_getD price h.toNat t (by omega), if_pos ht]
  have hdef : ∀ t, t < price.length →
      (((fwdVals price h.toNat).getD t none ≠ none) ↔
        (t : ℤ) + h < price.length) := by
    intro t ht
    rw [fwdVals_getD price h.toNat t ht]
    by_cases hc : t + h.toNat < price.length
    · rw [if_pos hc]
      simp only [ne_eq, reduceCtorEq, not_false_eq_true, true_iff]
      omega
    · rw [if_neg hc]
      simp only [ne_eq, not_true_eq_false, false_iff, not_lt]
      omega
  have hfwd : compute_forward_returns price h = .ok (fwdVals price h.toNat) := by
    rw [compute_forward_returns, if_neg (by omega)]
  have hkept : (List.range price.length).filter
      (fun t => ((fwdVals price h.toNat).getD t none).isSome) =
      List.range (price.length - h.toNat) := by
    rw [List.filter_congr (fun t ht => ?_),
      range_filter_lt price.length (price.length - h.toNat) (by omega)]
    have htn := List.mem_range.mp ht
    rw [fwdVals_getD price h.toNat t htn]
    by_cases hc : t + h.toNat < price.length
    · rw [if_pos hc]
      rw [decide_eq_true (by omega : t < price.length - h.toNat)]
      rfl
    · rw [if_neg hc]
      rw [decide_eq_false (by omega : ¬ t < price.length - h.toNat)]
      rfl
  have hmapS : ∀ (q : ℕ → Bool),
      (((List.range (price.length - h.toNat)).filter q).map
        (fun t => ((fwdVals price h.toNat).getD t none).getD 0)) =
      (((List.range (price.length - h.toNat)).filter q).map
        (fun t => price.getD (t + h.toNat) 0 / price.getD t 0 - 1)) := by
    intro q
    refine List.map_congr_left (fun t ht => ?_)
    have htm : t < price.length - h.toNat :=
      List.mem_range.mp (List.mem_filter.mp ht).1
    rw [hval t (by omega)]
    rfl
  have hmapO : ((List.range (price.length - h.toNat)).map
        (fun t => ((fwdVals price h.toNat).getD t none).getD 0)) =
      ((List.range (price.length - h.toNat)).map
        (fun t => price.getD (t + h.toNat) 0 / price.getD t 0 - 1)) := by
    refine List.map_congr_left (fun t ht => ?_)
    have htm : t < price.length - h.toNat := List.mem_range.mp ht
    rw [hval t (by omega)]
    rfl
  have hsum : summarize_signal_performance price signal h = .ok
      { group := ["signal_days", "non_signal_days", "overall"]
        count := [((List.range (price.length - h.toNat)).filter
                    (fun t => signal.getD t false)).length,
                  ((List.range (price.length - h.toNat)).filter
                    (fun t => !(signal.getD t false))).length,
                  price.length - h.toNat]
        mean_fwd_return := [seriesMeanQ (((List.range (price.length - h.toNat)).filter
                    (fun t => signal.getD t false)).map
                    (fun t => price.getD (t + h.toNat) 0 / price.getD t 0 - 1)),
                  seriesMeanQ (((List.range (price.length - h.toNat)).filter
                    (fun t => !(signal.getD t false))).map
                    (fun t => price.getD (t + h.toNat) 0 / price.getD t 0 - 1)),
                  seriesMeanQ ((List.range (price.length - h.toNat)).map
                    (fun t => price.getD (t + h.toNat) 0 / price.getD t 0 - 1))]
        median_fwd_return := [seriesMedianQ
                    (((List.range (price.length - h.toNat)).filter
                      (fun t => signal.getD t false)).map
                      (fun t => price.getD (t + h.toNat) 0 / price.getD t 0 - 1)),
                  seriesMedianQ (((List.range (price.length - h.toNat)).filter
                    (fun t => !(signal.getD t false))).map
                    (fun t => price.getD (t + h.toNat) 0 / price.getD t 0 - 1)),
                  seriesMedianQ ((List.range (price.length - h.toNat)).map
                    (fun t => price.getD (t + h.toNat) 0 / price.getD t 0 - 1))] } := by
    rw [summarize_signal_performance, hfwd]
    dsimp only
    rw [hkept, hmapS, hmapS, hmapO, List.length_map, List.length_map,
      List.length_map, List.length_range]
  refine ⟨hdef, hval, ?_, ?_, ?_⟩ <;> rw [hsum] <;> rfl

/-- Witness for C7: with horizon 2 on the 5-row series `[1,2,3,4,5]` and
signals at rows 0 and 2, the evaluator counts 2 signal rows, 1 non-signal row
and 3 overall — the last 2 rows are excluded, so the overall count is 3, not 5. -/
theorem forward_return_exclusion_witness :
    (summarize_signal_performance [(1 : ℚ), 2, 3, 4, 5]
        [true, false, true, false, false] 2).map (fun s => s.count) =
      .ok [2, 1, 3] := by
  rw [(forward_return_exclusion [(1 : ℚ), 2, 3, 4, 5]
    [true, false, true, false, false] 2 (by decide)).2.2.1]
  rfl
